import Mathlib

/-!
Shallow embedding of the statistical cut-and-fit core of the RQpy repository
(`rqpy/core/_cut.py` and `rqpy/core/_fitting.py`), together with theorems
settling the specification claims about it.

Conventions of the embedding:
* Machine floats are modelled as exact rationals `ℚ`; a possibly-NaN float
  value is modelled as `Option ℚ` with `none` playing the role of NaN
  (IEEE comparisons against NaN are false, which the `f*` comparison helpers
  reproduce).
* numpy arrays are `List`s; boolean masks are `List Bool`.
* Python exceptions are modelled with `Except PyErr`.  `PyErr.config` stands
  for the `ValueError`s this repository raises itself from its own validation
  code (the "ConfigurationError" of the specification), while the other
  constructors stand for errors that escape from library calls or from
  unbound local variables.
* External collaborators (`scipy.optimize.curve_fit`, `rqpy.utils.bindata`)
  are passed in as oracle functions, so theorems quantify over every possible
  solver/histogrammer outcome.
-/

/-- Error kinds observable from the embedded functions.  `config` models the
`ValueError` raised explicitly by the repository validation code; `index`
models an `IndexError` from indexing an empty array; `kth` models the
`ValueError` numpy raises when `argpartition` is given an out-of-range
`kth`; `lib` models other library `ValueError`s; `nameErr` models a Python
`NameError` from reading a local variable that was never assigned. -/
inductive PyErr where
  | config
  | index
  | kth
  | lib
  | nameErr
  deriving DecidableEq, Repr

/-- Python `int()` applied to a real number truncates toward zero. -/
def pyInt (q : ℚ) : Int :=
  if 0 ≤ q then ⌊q⌋ else ⌈q⌉

/-- Boolean-mask indexing `arr[cut]` of numpy: keep the entries whose mask
bit is true (both sequences read in parallel). -/
def maskList {α : Type} (l : List α) (cut : List Bool) : List α :=
  ((l.zip cut).filter (fun p => p.2)).map (fun p => p.1)

/-- Minimum of a list of rationals (numpy `min` of a nonempty sample; the
default only pads the empty case, which callers exclude). -/
def listMin (l : List ℚ) : ℚ :=
  l.foldl min (l.headD 0)

/-- Maximum of a list of rationals. -/
def listMax (l : List ℚ) : ℚ :=
  l.foldl max (l.headD 0)

/-- numpy `linspace a b num`: `num` evenly spaced points from `a` to `b`
inclusive; with `num ≤ 1` it degenerates to `[a]` (matching the
`linspace(smin, smax, 1)` call scipy makes when given zero bins). -/
def linspace (a b : ℚ) (num : Nat) : List ℚ :=
  if num ≤ 1 then [a]
  else (List.range num).map (fun j => a + (b - a) * j / ((num : ℚ) - 1))

/-- numpy `searchsorted(l, q, side = left)` on a sorted list: the number of
leading entries strictly below `q` (the insertion point keeping sortedness,
ties going to the left).  Written as a prefix scan, which agrees with the
binary search on every sorted input — the only inputs scipy ever hands it. -/
def searchLeft (l : List ℚ) (q : ℚ) : Nat :=
  match l with
  | [] => 0
  | a :: rest => if a < q then searchLeft rest q + 1 else 0

/-- numpy `searchsorted(l, q, side = right)` on a sorted list: the number of
entries that are `≤ q`. -/
def searchRight (l : List ℚ) (q : ℚ) : Nat :=
  l.countP (fun x => decide (x ≤ q))

/-- Bin assignment of `scipy.stats.binned_statistic` over `edges` (a sorted
list of `nbins + 1` boundaries): half-open bins `[edges j, edges (j+1))`,
except that a point sitting exactly on the final edge is counted in the last
bin. -/
def binIndex (edges : List ℚ) (nbins : Nat) (x : ℚ) : Nat :=
  min (searchRight edges x - 1) (nbins - 1)

/-- Selection of the element of rank `k` (0-based, ascending) of a list,
by recursive three-way partition around a pivot — the partial selection
`x[argpartition(x, k)][k]` performs, without fully sorting the list.
Out-of-range ranks return the junk value `0`; callers guard the range. -/
def quickselect (l : List ℚ) (k : Nat) : ℚ :=
  match l with
  | [] => 0
  | p :: rest =>
    if k < (rest.filter (fun x => decide (x < p))).length then
      quickselect (rest.filter (fun x => decide (x < p))) k
    else if k < (rest.filter (fun x => decide (x < p))).length +
        ((rest.filter (fun x => decide (x = p))).length + 1) then p
    else
      quickselect (rest.filter (fun x => decide (p < x)))
        (k - (rest.filter (fun x => decide (x < p))).length -
          ((rest.filter (fun x => decide (x = p))).length + 1))
termination_by l.length
decreasing_by
  · simp only [List.length_cons]
    exact Nat.lt_succ_of_le (List.length_filter_le _ _)
  · simp only [List.length_cons]
    exact Nat.lt_succ_of_le (List.length_filter_le _ _)

/-- The per-bin statistic lambda of `baselinecut_tdep`:
`st = lambda x: x[np.argpartition(x, int(len(x)*cut_eff))][int(len(x)*cut_eff)]`.
numpy raises a `ValueError` when the requested `kth` is out of range
(`kth = len(x)` happens at `cut_eff = 1`); `argpartition` also accepts
negative `kth ≥ -len(x)`, but a negative rank is unreachable for the
validated efficiencies (`cut_eff ≥ 0`), so that path is folded into the same
error constructor. -/
def pySt (cutEff : ℚ) (xs : List ℚ) : Except PyErr ℚ :=
  let k := pyInt ((xs.length : ℚ) * cutEff)
  if 0 ≤ k ∧ k < (xs.length : Int) then .ok (quickselect xs k.toNat)
  else .error .kth

/-- Efficiency actually used for the per-bin order statistic: the caller
supplied `cut_eff`, complemented when `positive_pulses` is false
(line `if not positive_pulses: cut_eff = 1 - cut_eff`). -/
def effectiveEff (positivePulses : Bool) (cutEff : ℚ) : ℚ :=
  if positivePulses then cutEff else 1 - cutEff

/-- Error-propagating map over a list, mirroring how an exception raised by
the statistic callable escapes from `scipy.stats.binned_statistic`. -/
def exceptMapM {α β : Type} (f : α → Except PyErr β) : List α → Except PyErr (List β)
  | [] => .ok []
  | a :: rest =>
    match f a with
    | .error e => .error e
    | .ok b =>
      match exceptMapM f rest with
      | .error e => .error e
      | .ok bs => .ok (b :: bs)

/-- Embedding of `scipy.stats.binned_statistic(xs, ys, bins = nbins,
statistic = stat)` for a callable statistic: equal-width bins spanning
`[min xs, max xs]`, statistic evaluated on the `ys` values of each nonempty
bin, `none` (NaN) recorded for empty bins (scipy never calls the statistic
there), and the edge list returned alongside.  With `nbins = 0` the call
never returns: scipy builds the single-point edge array
`linspace(smin, smax, 1)`, the edge-width array `np.diff(edges)` is empty,
and the internal `dedges.min()` reduction raises a `ValueError`
(zero-size reduction) inside the library call — modelled as `PyErr.lib`. -/
def binnedStatistic (xs ys : List ℚ) (nbins : Nat) (stat : List ℚ → Except PyErr ℚ) :
    Except PyErr (List (Option ℚ) × List ℚ) :=
  if nbins = 0 then .error .lib
  else
    let edges := linspace (listMin xs) (listMax xs) (nbins + 1)
    match exceptMapM (fun j =>
        let v := ((xs.zip ys).filter
          (fun p => decide (binIndex edges nbins p.1 = j))).map (fun p => p.2)
        if v.isEmpty then .ok none
        else
          match stat v with
          | .error e => .error e
          | .ok q => .ok (some q)) (List.range nbins) with
    | .error e => .error e
    | .ok cutoffs => .ok (cutoffs, edges)

/-- Evaluation of `scipy.interpolate.interp1d(nodes, ys, kind = next,
bounds_error = False, fill_value = (lo, hi), assume_sorted = True)` at a
query `q`: below the first node the lower fill value, above the last node
the upper fill value, otherwise the value attached to the first node that
is `≥ q` ("next-value" step interpolation).  Interpolated values are
`Option ℚ` because empty bins contribute NaN statistics. -/
def interpNextF (nodes : List ℚ) (ys : List (Option ℚ)) (lo hi : Option ℚ) (q : ℚ) :
    Option ℚ :=
  match nodes with
  | [] => none
  | a :: rest =>
    if q < a then lo
    else if (a :: rest).getLastD a < q then hi
    else ys.getD (searchLeft (a :: rest) q) none

/-- The threshold curve `baselinecut_tdep` builds at line 102:
`interp1d(bin_edges[:-1], cutoffs, kind = next, bounds_error = False,
fill_value = (cutoffs[0], cutoffs[-1]), assume_sorted = True)` — the
interpolation nodes are ALL bin edges except the final one (i.e. the left
edge of every bin), each carrying its bin statistic, with clamping fill
values taken from the first and last statistic. -/
def thresholdCurveF (cutoffs : List (Option ℚ)) (edges : List ℚ) (q : ℚ) : Option ℚ :=
  interpNextF edges.dropLast cutoffs (cutoffs.getD 0 none) (cutoffs.getLastD none) q

/-- Modelled from the spec: the threshold-curve construction exactly as the
claim words it — a next-value step interpolant whose nodes are the bin
RIGHT edges excluding the final edge, each mapped to that bin's order
statistic, with the same clamping fill values.  The right edges of the bins
are `edges.drop 1`; excluding the final edge leaves `(edges.drop 1).dropLast`,
carrying the statistics of the bins they close (`cutoffs.dropLast`).  This
definition exists only to be compared against `thresholdCurveF`, the curve
the code actually builds. -/
def specThresholdCurveC2 (cutoffs : List (Option ℚ)) (edges : List ℚ) (q : ℚ) : Option ℚ :=
  interpNextF ((edges.drop 1).dropLast) cutoffs.dropLast
    (cutoffs.getD 0 none) (cutoffs.getLastD none) q

/-- Float comparison `x < th` against a possibly-NaN threshold: false when
the threshold is NaN (IEEE semantics). -/
def fvalLt (x : ℚ) (th : Option ℚ) : Bool :=
  match th with
  | some v => decide (x < v)
  | none => false

/-- Float comparison `x > th` against a possibly-NaN threshold. -/
def fvalGt (x : ℚ) (th : Option ℚ) : Bool :=
  match th with
  | some v => decide (v < x)
  | none => false

/-- Elementwise mask construction `(b < f(t)) & cut` (resp. `>`): the curve
is evaluated at every original time value and the comparison is ANDed with
the prior mask. -/
def buildMask (b t : List ℚ) (cut : List Bool) (f : ℚ → Option ℚ) (pos : Bool) :
    List Bool :=
  (b.zip (t.zip cut)).map (fun p =>
    (if pos then fvalLt p.1 (f p.2.1) else fvalGt p.1 (f p.2.1)) && p.2.2)

/-- Steps of `baselinecut_tdep` up to the construction of the interpolant:
validate `cut_eff`, restrict to the prior mask, derive the elapsed time and
`nbins = int(t_elapsed / dt)`, complement the efficiency for
negative-going pulses, and run `binned_statistic` (whose failures —
including the `nbins = 0` zero-size reduction and a negative bin count —
propagate out as library errors).  Whenever the binning call returns at
all, it returns `nbins ≥ 1` statistics, so the eager
`fill_value = (cutoffs[0], cutoffs[-1])` pair at line 102 indexes a
nonempty array and needs no failure case of its own. -/
def baselineCurveData (t b : List ℚ) (cut : List Bool) (dt cutEff : ℚ) (pos : Bool) :
    Except PyErr (List (Option ℚ) × List ℚ) :=
  if cutEff > 1 ∨ cutEff < 0 then .error .config
  else if (maskList t cut).isEmpty then .error .index
  else
    let tElapsed := (maskList t cut).getLastD 0 - (maskList t cut).headD 0
    let nbinsI := pyInt (tElapsed / dt)
    if nbinsI < 0 then .error .lib
    else
      binnedStatistic (maskList t cut) (maskList b cut) nbinsI.toNat
        (pySt (effectiveEff pos cutEff))

/-- Embedding of `baselinecut_tdep(t, b, cut, dt, cut_eff, positive_pulses)`
from `rqpy/core/_cut.py` (the caller passes `cut` explicitly; the Python
default `cut = None` is the all-true mask).  Returns the boolean mask
`(b < f(t)) & cut` (or `>` for negative-going pulses) over the full
original sample length. -/
def baselinecut_tdep (t b : List ℚ) (cut : List Bool) (dt cutEff : ℚ) (pos : Bool) :
    Except PyErr (List Bool) :=
  match baselineCurveData t b cut dt cutEff pos with
  | .error e => .error e
  | .ok res => .ok (buildMask b t cut (thresholdCurveF res.1 res.2) pos)

/-- Float `≥` with NaN operands comparing false (IEEE semantics). -/
def fge (x y : Option ℚ) : Bool :=
  match x, y with
  | some a, some b => decide (b ≤ a)
  | _, _ => false

/-- Float `≤` with NaN operands comparing false. -/
def fle (x y : Option ℚ) : Bool :=
  match x, y with
  | some a, some b => decide (a ≤ b)
  | _, _ => false

/-- Embedding of `inrange(vals, lwrbnd, uprbnd)` from `rqpy/core/_cut.py`:
the elementwise mask `(vals >= lwrbnd) & (vals <= uprbnd)`, inclusive at
both ends, over possibly-NaN values and bounds. -/
def inrange (vals : List (Option ℚ)) (lwrbnd uprbnd : Option ℚ) : List Bool :=
  vals.map (fun v => fge v lwrbnd && fle v uprbnd)

/-- Strided slice `l[start : -1 : 3]` of Python: every third entry starting
at `start`, stopping before the last entry. -/
def strided (l : List ℚ) (start : Nat) : List ℚ :=
  ((List.range l.length).filter
      (fun i => decide (start ≤ i ∧ i + 1 < l.length ∧ (i - start) % 3 = 0))).map
    (fun i => l.getD i 0)

/-- Diagonal of a covariance matrix given as a list of rows
(`np.diag(cov)`). -/
def diag (m : List (List ℚ)) : List ℚ :=
  (List.range m.length).map (fun i => (m.getD i []).getD i 0)

/-- numpy `argsort` of a list: the indices `0 .. len-1` reordered so that
the keys they point at are ascending.  numpy uses an unstable quicksort;
this embedding uses a stable sort, which induces the same jointly-applied
permutation semantics (and is literally identical whenever the keys are
distinct). -/
def argsort (l : List ℚ) : List Nat :=
  (List.range l.length).mergeSort (fun i j => decide (l.getD i 0 ≤ l.getD j 0))

/-- Result record of `fit_multi_gauss` (the `lgcfullreturn` shape, minus the
binned data, which no claim touches).  Parameter uncertainties are
represented by their squares `errors2` — the code computes
`errors = np.sqrt(np.diag(cov))`, and squaring is strictly monotone on the
nonnegative reals, so every ordering/pairing statement about the
uncertainties holds exactly when it holds for their squares, while keeping
the embedding inside `ℚ`. -/
structure MGResult where
  peaks : List ℚ
  amps : List ℚ
  stds : List ℚ
  background : ℚ
  fitparams : List ℚ
  errors2 : List ℚ
  deriving DecidableEq, Repr

/-- Post-processing of `fit_multi_gauss` (lines 80-90 of
`rqpy/core/_fitting.py`): squared uncertainties from the covariance
diagonal, the three strided parameter slices, the background from the last
parameter, and the joint `argsort`-by-location reordering of peaks,
amplitudes and widths.  Note the errors are computed BEFORE the sort and
are never permuted. -/
def multiGaussPost (fitparams : List ℚ) (cov : List (List ℚ)) : MGResult :=
  let errors2 := diag cov
  let peaks := strided fitparams 1
  let amps := strided fitparams 0
  let stds := strided fitparams 2
  let idx := argsort peaks
  { peaks := idx.map (fun i => peaks.getD i 0)
    amps := idx.map (fun i => amps.getD i 0)
    stds := idx.map (fun i => stds.getD i 0)
    background := fitparams.getLastD 0
    fitparams := fitparams
    errors2 := errors2 }

/-- Embedding of `fit_multi_gauss(arr, guess, ngauss, ...)`: the guess-length
validation `ngauss != (len(guess)-1)/3` (exact rational division, as Python 3
true division of these small integers compares exactly), then the external
histogrammer `utils.bindata` and solver `scipy.optimize.curve_fit`, both
passed in as oracle functions (`bindata` returns `(x, y, bins)`;
`curveFit` consumes the binned data and the guess and returns
`(fitparams, cov)`), then the post-processing above. -/
def fit_multi_gauss (arr : List ℚ) (guess : List ℚ) (ngauss : Nat)
    (bindata : List ℚ → List ℚ × List ℚ × List ℚ)
    (curveFit : List ℚ × List ℚ × List ℚ → List ℚ → List ℚ × List (List ℚ)) :
    Except PyErr MGResult :=
  if (ngauss : ℚ) ≠ ((guess.length : ℚ) - 1) / 3 then .error .config
  else
    let bd := bindata arr
    let fc := curveFit bd guess
    .ok (multiGaussPost fc.1 fc.2)

/-- Modelled from the spec: the squared parameter uncertainties arranged the
way the claim asserts `fit_multi_gauss` reports them — per-component
`(amplitude, location, width)` triples following the ascending-location
sorted component order, background last, so that uncertainty triple `i`
pairs with sorted component `i`.  This definition exists only to be
compared against the `errors2` the code actually returns. -/
def specSortedErrors2 (fitparams : List ℚ) (cov : List (List ℚ)) : List ℚ :=
  let errors2 := diag cov
  let idx := argsort (strided fitparams 1)
  (idx.map (fun i =>
      [errors2.getD (3 * i) 0, errors2.getD (3 * i + 1) 0, errors2.getD (3 * i + 2) 0])).flatten
    ++ [errors2.getLastD 0]

/-- Index (first occurrence) of the minimum of `|xi - c|` over a list —
`np.abs(x - c).argmin()`.  Helper returning both the index and the
minimum. -/
def argminAbsAux (c : ℚ) : List ℚ → Option (Nat × ℚ)
  | [] => none
  | x0 :: rest =>
    match argminAbsAux c rest with
    | none => some (0, |x0 - c|)
    | some iv => if |x0 - c| ≤ iv.2 then some (0, |x0 - c|) else some (iv.1 + 1, iv.2)

/-- numpy `np.abs(x - c).argmin()` (first index attaining the minimum). -/
def argminAbs (x : List ℚ) (c : ℚ) : Nat :=
  match argminAbsAux c x with
  | none => 0
  | some iv => iv.1

/-- Python slice normalization: a possibly negative index is offset by the
length and clamped into `[0, len]`. -/
def pySliceNorm (n : Nat) (i : Int) : Nat :=
  if i < 0 then (max 0 ((n : Int) + i)).toNat else min i.toNat n

/-- Python slice `l[a:b]` with possibly negative endpoints. -/
def pySlice {α : Type} (l : List α) (a b : Int) : List α :=
  (l.take (pySliceNorm l.length b)).drop (pySliceNorm l.length a)

/-- numpy `np.mean`.  On an empty slice numpy yields NaN rather than
raising; no claim exercises that case, and the junk value `0` stands in for
it here. -/
def pyMean (l : List ℚ) : ℚ :=
  l.sum / l.length

/-- Embedding of the sideband-background block of `fit_gauss`
(lines 142-160 of `rqpy/core/_fitting.py`), given the binned data `x`, `y`
and the caller's `xrange` and `noiserange`.  The code reads:

  if noiserange[0][0] >= xrange[0]: clowl = noiserange[0][0]
  else: clow = xrange[0]

so on the else-branch the variable `clowl` is never assigned (the
assignment targets the unrelated name `clow`), and the later use
`np.abs(x - clowl)` raises `NameError`.  `clowl` is therefore modelled as
an `Option` that is `none` exactly on that branch. -/
def fitGaussBackground (x y : List ℚ) (xrange : ℚ × ℚ)
    (noiserange : (ℚ × ℚ) × (ℚ × ℚ)) : Except PyErr ℚ :=
  let clowl : Option ℚ := if noiserange.1.1 ≥ xrange.1 then some noiserange.1.1 else none
  let clowh := noiserange.1.2
  let chighl := noiserange.2.1
  let chighh := if noiserange.2.2 ≤ xrange.2 then noiserange.2.2 else xrange.2
  match clowl with
  | none => .error .nameErr
  | some cl =>
    let indlowl := argminAbs x cl
    let indlowh := argminAbs x clowh
    let indhighl := argminAbs x chighl
    let indhighh : Int := (argminAbs x chighh : Int) - 1
    .ok (pyMean (pySlice y indlowl indlowh ++ pySlice y indhighl indhighh))

/-! Selection-algorithm correctness: the pivot-partition selection used by the
per-bin statistic returns exactly the rank-k element of the ascending sort. -/

lemma sorted_mergeSort_q (l : List ℚ) :
    List.Sorted (· ≤ ·) (l.mergeSort (fun a b => decide (a ≤ b))) := by
  have h := @List.sorted_mergeSort ℚ (fun a b => decide (a ≤ b))
    (by intro a b c hab hbc; simp only [decide_eq_true_eq] at *; exact le_trans hab hbc)
    (by intro a b; simpa using le_total a b) l
  exact h.imp (by simp)

lemma pairwise_le_of_all_eq (l : List ℚ) (p : ℚ) (h : ∀ x ∈ l, x = p) :
    l.Pairwise (· ≤ ·) := by
  induction l with
  | nil => exact .nil
  | cons a rest ih =>
    refine .cons (fun y hy => ?_) (ih fun x hx => h x (by simp [hx]))
    rw [h a (by simp), h y (by simp [hy])]

lemma rest_perm_partition (p : ℚ) (rest : List ℚ) :
    rest.Perm (rest.filter (fun x => decide (x < p)) ++
      (rest.filter (fun x => decide (x = p)) ++ rest.filter (fun x => decide (p < x)))) := by
  have h1 := List.filter_append_perm (fun x => decide (x < p)) rest
  have h2 := List.filter_append_perm (fun x => decide (x = p))
      (rest.filter (fun x => !decide (x < p)))
  rw [List.filter_filter, List.filter_filter] at h2
  have e1 : rest.filter (fun a => decide (a = p) && !decide (a < p)) =
      rest.filter (fun x => decide (x = p)) := by
    apply List.filter_congr
    intro x _
    by_cases hx : x = p
    · subst hx; simp
    · simp [hx]
  have e2 : rest.filter (fun a => !decide (a = p) && !decide (a < p)) =
      rest.filter (fun x => decide (p < x)) := by
    apply List.filter_congr
    intro x _
    rcases lt_trichotomy x p with h | h | h
    · simp [h, lt_asymm h]
    · subst h; simp
    · simp [lt_asymm h, ne_of_gt h, h]
  rw [e1, e2] at h2
  exact h1.symm.trans (List.Perm.append_left _ h2.symm)

theorem mergeSort_partition (p : ℚ) (rest : List ℚ) :
    (p :: rest).mergeSort (fun a b => decide (a ≤ b)) =
      (rest.filter (fun x => decide (x < p))).mergeSort (fun a b => decide (a ≤ b)) ++
        ((p :: rest.filter (fun x => decide (x = p))) ++
          (rest.filter (fun x => decide (p < x))).mergeSort (fun a b => decide (a ≤ b))) := by
  apply List.eq_of_perm_of_sorted (r := fun a b : ℚ => a ≤ b)
  · refine (List.mergeSort_perm _ _).trans ?_
    refine ((rest_perm_partition p rest).cons p).trans ?_
    refine (List.perm_middle.symm).trans ?_
    refine List.Perm.append (List.mergeSort_perm _ _).symm ?_
    rw [List.cons_append]
    exact ((List.Perm.append_left _ (List.mergeSort_perm _ _).symm).cons p)
  · exact sorted_mergeSort_q _
  · have hltsmem : ∀ x ∈ (rest.filter (fun x => decide (x < p))).mergeSort
        (fun a b => decide (a ≤ b)), x < p := by
      intro x hx
      rw [List.mem_mergeSort, List.mem_filter] at hx
      simpa using hx.2
    have heqsmem : ∀ x ∈ rest.filter (fun x => decide (x = p)), x = p := by
      intro x hx
      rw [List.mem_filter] at hx
      simpa using hx.2
    have hgtsmem : ∀ x ∈ (rest.filter (fun x => decide (p < x))).mergeSort
        (fun a b => decide (a ≤ b)), p < x := by
      intro x hx
      rw [List.mem_mergeSort, List.mem_filter] at hx
      simpa using hx.2
    rw [List.Sorted, List.pairwise_append]
    refine ⟨sorted_mergeSort_q _, ?_, ?_⟩
    · rw [List.pairwise_append]
      refine ⟨?_, sorted_mergeSort_q _, ?_⟩
      · refine List.Pairwise.cons (fun y hy => ?_) (pairwise_le_of_all_eq _ p heqsmem)
        rw [heqsmem y hy]
      · intro x hx y hy
        rcases List.mem_cons.1 hx with h | h
        · subst h; exact le_of_lt (hgtsmem y hy)
        · rw [heqsmem x h]; exact le_of_lt (hgtsmem y hy)
    · intro x hx y hy
      have hxp := hltsmem x hx
      rcases List.mem_append.1 hy with h | h
      · rcases List.mem_cons.1 h with h | h
        · subst h; exact le_of_lt hxp
        · rw [heqsmem y h]; exact le_of_lt hxp
      · exact le_of_lt (lt_trans hxp (hgtsmem y h))

theorem quickselect_eq_sorted : ∀ (l : List ℚ) (k : Nat), k < l.length →
    quickselect l k = (l.mergeSort (fun a b => decide (a ≤ b))).getD k 0
  | [], k, hk => by simp at hk
  | p :: rest, k, hk => by
    have hpart := mergeSort_partition p rest
    rw [quickselect]
    set lts := rest.filter (fun x => decide (x < p)) with hlts
    set eqs := rest.filter (fun x => decide (x = p)) with heqs
    set gts := rest.filter (fun x => decide (p < x)) with hgts
    have hlen : rest.length + 1 = lts.length + (eqs.length + 1) + gts.length := by
      have hml := (List.mergeSort_perm (p :: rest) (fun a b => decide (a ≤ b))).symm.length_eq
      rw [hpart] at hml
      simp only [List.length_append, List.length_mergeSort, List.length_cons] at hml
      omega
    have heqsmem : ∀ x ∈ eqs, x = p := by
      intro x hx
      rw [heqs] at hx
      have := List.mem_filter.1 hx
      simpa using this.2
    by_cases h1 : k < lts.length
    · rw [if_pos h1, hpart]
      rw [quickselect_eq_sorted lts k (by simpa using h1)]
      rw [List.getD_eq_getElem?_getD, List.getD_eq_getElem?_getD]
      rw [List.getElem?_append_left (by simpa using h1)]
    · rw [if_neg h1]
      by_cases h2 : k < lts.length + (eqs.length + 1)
      · rw [if_pos h2, hpart]
        rw [List.getD_eq_getElem?_getD]
        rw [List.getElem?_append_right (by simp only [List.length_mergeSort]; omega)]
        rw [List.getElem?_append_left (by simp only [List.length_mergeSort, List.length_cons]; omega)]
        have hidx : k - (lts.mergeSort (fun a b => decide (a ≤ b))).length < (p :: eqs).length := by
          simp only [List.length_mergeSort, List.length_cons]
          omega
        rw [List.getElem?_eq_getElem hidx]
        have hval : ∀ i (h : i < (p :: eqs).length), (p :: eqs)[i] = p := by
          intro i h
          match i with
          | 0 => rfl
          | Nat.succ j =>
            simp only [List.getElem_cons_succ]
            exact heqsmem _ (List.getElem_mem _)
        rw [hval _ hidx]
        rfl
      · rw [if_neg h2, hpart]
        have hk3 : k - lts.length - (eqs.length + 1) < gts.length := by
          simp only [List.length_cons] at hk
          omega
        rw [quickselect_eq_sorted gts _ hk3]
        rw [List.getD_eq_getElem?_getD, List.getD_eq_getElem?_getD]
        rw [List.getElem?_append_right (by simp only [List.length_mergeSort]; omega)]
        rw [List.getElem?_append_right (by simp only [List.length_mergeSort, List.length_cons]; omega)]
        have hidx2 : k - (lts.mergeSort (fun a b => decide (a ≤ b))).length - (p :: eqs).length
            = k - lts.length - (eqs.length + 1) := by
          simp only [List.length_mergeSort, List.length_cons]
        rw [hidx2]
termination_by l => l.length
decreasing_by
  all_goals simp only [List.length_cons]
  all_goals exact Nat.lt_succ_of_le (List.length_filter_le _ _)

/-! Helper facts about the embedded primitives. -/

lemma pyInt_of_nonneg (q : ℚ) (h : 0 ≤ q) : pyInt q = ⌊q⌋ := if_pos h

lemma pySt_ne_config (cutEff : ℚ) (xs : List ℚ) : pySt cutEff xs ≠ .error .config := by
  unfold pySt
  simp only []
  split <;> simp

lemma exceptMapM_ne_config {α β : Type} (f : α → Except PyErr β)
    (hf : ∀ a, f a ≠ .error .config) (l : List α) :
    exceptMapM f l ≠ .error .config := by
  induction l with
  | nil => simp [exceptMapM]
  | cons a rest ih =>
    rw [exceptMapM]
    cases hfa : f a with
    | error e =>
      dsimp only
      intro hcon
      injection hcon with he
      subst he
      exact hf a hfa
    | ok bb =>
      dsimp only
      cases hrest : exceptMapM f rest with
      | error e =>
        dsimp only
        intro hcon
        injection hcon with he
        subst he
        exact ih hrest
      | ok bs => simp

lemma binnedStatistic_ne_config (xs ys : List ℚ) (nbins : Nat)
    (stat : List ℚ → Except PyErr ℚ) (hstat : ∀ v, stat v ≠ .error .config) :
    binnedStatistic xs ys nbins stat ≠ .error .config := by
  rw [binnedStatistic]
  by_cases h0 : nbins = 0
  · rw [if_pos h0]
    simp
  rw [if_neg h0]
  simp only []
  have hf : ∀ j : Nat, (fun j =>
      let v := ((xs.zip ys).filter
        (fun p => decide (binIndex (linspace (listMin xs) (listMax xs) (nbins + 1)) nbins p.1 = j))).map
          (fun p => p.2)
      if v.isEmpty then (Except.ok none : Except PyErr (Option ℚ))
      else
        match stat v with
        | .error e => .error e
        | .ok q => .ok (some q)) j ≠ .error .config := by
    intro j
    simp only
    split
    · simp
    · split
      · next e heq =>
        intro hcon
        injection hcon with he
        subst he
        exact hstat _ heq
      · simp
  have hmap := exceptMapM_ne_config _ hf (List.range nbins)
  split
  · next e heq =>
    intro hcon
    injection hcon with he
    subst he
    exact hmap heq
  · simp

/-- Claim C5: for every non-empty time bin of `baselinecut_tdep`, the bin
statistic equals the element of rank `floor(count * effective_efficiency)`
of the bin values sorted ascending, where the effective efficiency is the
caller's `cut_eff`, complemented to `1 - cut_eff` when `positive_pulses`
is false; the statistic is computed by partial selection (`quickselect`)
rather than a full sort, and agrees with the sorted-rank description. -/
theorem c5_bin_statistic_rank (pos : Bool) (cutEff : ℚ) (xs : List ℚ)
    (h0 : 0 ≤ effectiveEff pos cutEff)
    (hk : (⌊(xs.length : ℚ) * effectiveEff pos cutEff⌋).toNat < xs.length) :
    pySt (effectiveEff pos cutEff) xs =
      .ok ((xs.mergeSort (fun a b => decide (a ≤ b))).getD
        (⌊(xs.length : ℚ) * effectiveEff pos cutEff⌋).toNat 0) ∧
    effectiveEff pos cutEff = (if pos then cutEff else 1 - cutEff) := by
  refine ⟨?_, rfl⟩
  have harg : 0 ≤ (xs.length : ℚ) * effectiveEff pos cutEff :=
    mul_nonneg (Nat.cast_nonneg _) h0
  have hfl : 0 ≤ ⌊(xs.length : ℚ) * effectiveEff pos cutEff⌋ := Int.floor_nonneg.mpr harg
  have hki : ⌊(xs.length : ℚ) * effectiveEff pos cutEff⌋ < (xs.length : Int) := by omega
  rw [pySt]
  simp only [pyInt_of_nonneg _ harg]
  rw [if_pos ⟨hfl, hki⟩]
  exact congrArg Except.ok (quickselect_eq_sorted xs _ hk)

/-- Witness for C5 at a concrete input: positive pulses, `cut_eff = 0`,
bin values `[5, 4]`. -/
theorem c5_bin_statistic_rank_witness :
    pySt (effectiveEff true 0) [(5 : ℚ), 4] =
      .ok (([(5 : ℚ), 4].mergeSort (fun a b => decide (a ≤ b))).getD
        (⌊(([(5 : ℚ), 4].length : ℚ)) * effectiveEff true 0⌋).toNat 0) ∧
    effectiveEff true 0 = (if true then 0 else 1 - 0) :=
  c5_bin_statistic_rank true 0 [5, 4] (by norm_num [effectiveEff])
    (by norm_num [effectiveEff])

/-- Claim C6 (amended): for every efficiency in `[0, 1)` — including the
boundary `0` — and every nonempty bin, the selection index
`int(len(bin) * cut_eff)` is a valid index and the statistic succeeds; the
claim fails only at the other accepted boundary `cut_eff = 1`, where the
index equals the bin count (see the counterexample). -/
theorem c6_index_valid_below_one (eff : ℚ) (xs : List ℚ) (h0 : 0 ≤ eff) (h1 : eff < 1)
    (hne : xs ≠ []) :
    (⌊(xs.length : ℚ) * eff⌋).toNat < xs.length ∧ ∃ q, pySt eff xs = .ok q := by
  have hlen : 0 < xs.length := List.length_pos.mpr hne
  have harg : 0 ≤ (xs.length : ℚ) * eff := mul_nonneg (Nat.cast_nonneg _) h0
  have hlenq : (0 : ℚ) < (xs.length : ℚ) := by exact_mod_cast hlen
  have hlt : (xs.length : ℚ) * eff < (xs.length : ℚ) := by
    calc (xs.length : ℚ) * eff < (xs.length : ℚ) * 1 := by
          exact mul_lt_mul_of_pos_left h1 hlenq
      _ = (xs.length : ℚ) := mul_one _
  have hfl : ⌊(xs.length : ℚ) * eff⌋ < (xs.length : Int) := by
    rw [Int.floor_lt]
    push_cast
    exact hlt
  have hfl0 : 0 ≤ ⌊(xs.length : ℚ) * eff⌋ := Int.floor_nonneg.mpr harg
  constructor
  · omega
  · refine ⟨quickselect xs (⌊(xs.length : ℚ) * eff⌋).toNat, ?_⟩
    rw [pySt]
    simp only [pyInt_of_nonneg _ harg]
    rw [if_pos ⟨hfl0, hfl⟩]

/-- Witness for the amended C6 at the boundary `cut_eff = 0` with the
one-element bin `[7]`: the selection index is valid. -/
theorem c6_index_valid_below_one_witness :
    (⌊(([(7 : ℚ)].length : ℚ)) * 0⌋).toNat < [(7 : ℚ)].length :=
  (c6_index_valid_below_one 0 [7] (by norm_num) (by norm_num) (by simp)).1

/-- Counterexample for C6 as stated: `cut_eff = 1` passes the validation
check of `baselinecut_tdep`, yet on a run with two one-element bins the
selection index `int(1 * 1) = 1` is out of range for a one-element bin and
the per-bin selection fails with numpy's out-of-range-kth error instead of
computing a statistic. -/
theorem c6_eff_one_counterexample :
    baselinecut_tdep [0, 2] [1, 2] [true, true] 1 1 true = .error .kth := by
  have hmt : maskList [(0 : ℚ), 2] [true, true] = [0, 2] := by norm_num [maskList]
  have hmb : maskList [(1 : ℚ), 2] [true, true] = [1, 2] := by norm_num [maskList]
  have hedges : linspace (listMin [0, 2]) (listMax [0, 2]) (2 + 1) = [0, 1, 2] := by
    norm_num [linspace, listMin, listMax, List.range_succ]
  have hbs : binnedStatistic [0, 2] [1, 2] 2 (pySt 1) = .error .kth := by
    simp only [binnedStatistic, hedges]
    norm_num [exceptMapM, List.range_succ, binIndex, searchRight, pySt, pyInt]
  have heff : effectiveEff true 1 = 1 := rfl
  simp only [baselinecut_tdep, baselineCurveData, hmt, hmb, heff]
  norm_num [pyInt]
  have hbs2 : binnedStatistic [0, 2] [1, 2] (Int.toNat 2) (pySt 1) = Except.error PyErr.kth := by
    rw [show Int.toNat 2 = 2 from rfl]
    exact hbs
  simp only [hbs2]

/-- Counterexample for C3: a concrete input whose restricted span divided by
the bin width gives `nbins = 0` (times `[0, 0]`, `dt = 1`).  The operation
does not raise the explicit validation error (`PyErr.config`, the
ConfigurationError of the claim); it hands `bins = 0` to
`scipy.stats.binned_statistic`, which raises a zero-size-reduction
`ValueError` inside the library call (`PyErr.lib`), a different error from
the claimed one. -/
theorem c3_nbins_zero_counterexample :
    baselinecut_tdep [0, 0] [1, 2] [true, true] 1 0 true = .error .lib ∧
      PyErr.lib ≠ PyErr.config := by
  constructor
  · norm_num [baselinecut_tdep, baselineCurveData, maskList, pyInt, binnedStatistic,
      effectiveEff]
  · simp

/-- Claim C3 (amended): whenever the inputs pass the efficiency validation,
the restricted time list is nonempty, and the computed bin count
`int(t_elapsed / dt)` is zero, `baselinecut_tdep` never returns a mask — it
fails — but it performs no bin-count validation of its own: the failure is
a `ValueError` raised inside the `binned_statistic` library call (a
zero-size reduction over the empty edge-width array), not an explicitly
raised configuration error with a clear message. -/
theorem c3_nbins_zero_is_library_error (t b : List ℚ) (cut : List Bool) (dt cutEff : ℚ)
    (pos : Bool) (hval : ¬(cutEff > 1 ∨ cutEff < 0)) (hne : ¬(maskList t cut).isEmpty)
    (hzero : pyInt (((maskList t cut).getLastD 0 - (maskList t cut).headD 0) / dt) = 0) :
    baselinecut_tdep t b cut dt cutEff pos = .error .lib := by
  rw [baselinecut_tdep, baselineCurveData]
  rw [if_neg hval, if_neg (by simpa using hne)]
  simp only [hzero]
  rw [if_neg (by omega)]
  simp only [Int.toNat_zero, binnedStatistic]
  simp

/-- Witness for the amended C3: a concrete zero-span input reaching the
library error. -/
theorem c3_nbins_zero_is_library_error_witness :
    baselinecut_tdep [5, 5] [1, 2] [true, true] 2 0 true = .error .lib :=
  c3_nbins_zero_is_library_error [5, 5] [1, 2] [true, true] 2 0 true
    (by norm_num) (by norm_num [maskList]) (by norm_num [maskList, pyInt])

/-- Claim C8: `baselinecut_tdep` raises its explicit validation error (the
ConfigurationError of the specification, a Python `ValueError`) exactly
when `cut_eff` lies outside `[0, 1]` — the boundary values `0` and `1` are
accepted — and when it does, the failure is independent of every data
input, because the validation is the first statement of the function (no
partial computation is observable). -/
theorem c8_validation_iff (t b : List ℚ) (cut : List Bool) (dt cutEff : ℚ) (pos : Bool) :
    (baselinecut_tdep t b cut dt cutEff pos = .error .config ↔ (cutEff > 1 ∨ cutEff < 0)) ∧
    ((cutEff > 1 ∨ cutEff < 0) → ∀ (t2 b2 : List ℚ) (cut2 : List Bool) (dt2 : ℚ) (pos2 : Bool),
      baselinecut_tdep t2 b2 cut2 dt2 cutEff pos2 = .error .config) := by
  have hout : ∀ (t2 b2 : List ℚ) (cut2 : List Bool) (dt2 : ℚ) (pos2 : Bool),
      (cutEff > 1 ∨ cutEff < 0) →
      baselinecut_tdep t2 b2 cut2 dt2 cutEff pos2 = .error .config := by
    intro t2 b2 cut2 dt2 pos2 h
    rw [baselinecut_tdep, baselineCurveData, if_pos h]
  refine ⟨⟨?_, fun h => hout t b cut dt pos h⟩, fun h t2 b2 cut2 dt2 pos2 => hout _ _ _ _ _ h⟩
  intro hres
  by_contra hv
  rw [baselinecut_tdep, baselineCurveData, if_neg hv] at hres
  by_cases hemp : (maskList t cut).isEmpty
  · rw [if_pos hemp] at hres
    exact absurd hres (by simp)
  · rw [if_neg hemp] at hres
    by_cases hnb : pyInt (((maskList t cut).getLastD 0 - (maskList t cut).headD 0) / dt) < 0
    · rw [if_pos hnb] at hres
      exact absurd hres (by simp)
    · rw [if_neg hnb] at hres
      have hne := binnedStatistic_ne_config (maskList t cut) (maskList b cut)
        (pyInt (((maskList t cut).getLastD 0 - (maskList t cut).headD 0) / dt)).toNat
        (pySt (effectiveEff pos cutEff)) (fun v => pySt_ne_config _ v)
      cases hbs : binnedStatistic (maskList t cut) (maskList b cut)
          (pyInt (((maskList t cut).getLastD 0 - (maskList t cut).headD 0) / dt)).toNat
          (pySt (effectiveEff pos cutEff)) with
      | error e =>
        rw [hbs] at hres
        dsimp only at hres
        injection hres with he
        rw [hbs, he] at hne
        exact hne rfl
      | ok res =>
        rw [hbs] at hres
        exact absurd hres (by simp)

/-- Witness for C8: an out-of-range efficiency on concrete data produces the
validation error. -/
theorem c8_validation_iff_witness :
    baselinecut_tdep [0] [1] [true] 1 2 true = .error .config :=
  (c8_validation_iff [0] [1] [true] 1 2 true).1.mpr (by norm_num)

lemma zip3_getElem? (b t : List ℚ) (cut : List Bool) (i : Nat)
    (hlt : t.length = b.length) (hlc : cut.length = b.length) (hi : i < b.length) :
    (b.zip (t.zip cut))[i]? =
      some (b.getD i 0, (t.getD i 0, cut.getD i false)) := by
  have hib : i < t.length := by omega
  have hic : i < cut.length := by omega
  rw [List.zip, List.zip, List.getElem?_zipWith, List.getElem?_zipWith]
  rw [List.getElem?_eq_getElem hi, List.getElem?_eq_getElem hib, List.getElem?_eq_getElem hic]
  simp [List.getD_eq_getElem?_getD, List.getElem?_eq_getElem, hi, hib, hic]

lemma buildMask_getD (b t : List ℚ) (cut : List Bool) (f : ℚ → Option ℚ) (pos : Bool) (i : Nat)
    (hlt : t.length = b.length) (hlc : cut.length = b.length) :
    (buildMask b t cut f pos).getD i false =
      ((if pos then fvalLt (b.getD i 0) (f (t.getD i 0))
        else fvalGt (b.getD i 0) (f (t.getD i 0))) && cut.getD i false) := by
  by_cases hi : i < b.length
  · rw [buildMask, List.getD_eq_getElem?_getD, List.getElem?_map,
      zip3_getElem? b t cut i hlt hlc hi]
    simp
  · have hib : b.length ≤ i := le_of_not_lt hi
    have hmlen : (buildMask b t cut f pos).length ≤ i := by
      simp only [buildMask, List.length_map, List.length_zip]
      omega
    have hclen : cut.length ≤ i := by omega
    rw [List.getD_eq_getElem?_getD, List.getElem?_eq_none hmlen]
    rw [List.getD_eq_getElem?_getD (l := cut), List.getElem?_eq_none hclen]
    simp

lemma buildMask_length (b t : List ℚ) (cut : List Bool) (f : ℚ → Option ℚ) (pos : Bool)
    (hlt : t.length = b.length) (hlc : cut.length = b.length) :
    (buildMask b t cut f pos).length = b.length := by
  simp only [buildMask, List.length_map, List.length_zip]
  omega

/-- Claim C9: when `baselinecut_tdep` succeeds, the returned mask has the
full original sample length, entry `i` is true exactly when the prior mask
is true there and the value passes the strict comparison against the
threshold curve evaluated at that original time value (direction set by
`positive_pulses`), and every retained index was retained by the prior
mask. -/
theorem c9_mask_semantics (t b : List ℚ) (cut : List Bool) (dt cutEff : ℚ) (pos : Bool)
    (mask : List Bool) (i : Nat) (hlt : t.length = b.length) (hlc : cut.length = b.length)
    (hok : baselinecut_tdep t b cut dt cutEff pos = .ok mask) :
    mask.length = b.length ∧
    (∃ co ed, baselineCurveData t b cut dt cutEff pos = .ok (co, ed) ∧
      mask.getD i false =
        ((if pos then fvalLt (b.getD i 0) (thresholdCurveF co ed (t.getD i 0))
          else fvalGt (b.getD i 0) (thresholdCurveF co ed (t.getD i 0))) &&
          cut.getD i false)) ∧
    (mask.getD i false = true → cut.getD i false = true) := by
  rw [baselinecut_tdep] at hok
  cases hbc : baselineCurveData t b cut dt cutEff pos with
  | error e =>
    rw [hbc] at hok
    exact absurd hok (by simp)
  | ok res =>
    rw [hbc] at hok
    dsimp only at hok
    injection hok with hmask
    subst hmask
    refine ⟨buildMask_length b t cut _ pos hlt hlc, ⟨res.1, res.2, ?_, ?_⟩, ?_⟩
    · simp [hbc]
    · exact buildMask_getD b t cut _ pos i hlt hlc
    · rw [buildMask_getD b t cut _ pos i hlt hlc]
      intro h
      exact ((Bool.and_eq_true _ _).mp h).2

/-- Witness for C9: a concrete successful run (four samples, three bins,
`cut_eff = 1/2`), with the mask-length and prior-mask-containment facts
instantiated from `c9_mask_semantics`. -/
theorem c9_mask_semantics_witness :
    ([false, false, true, false] : List Bool).length = ([1, 2, 3, 4] : List ℚ).length ∧
    (([false, false, true, false] : List Bool).getD 2 false = true →
      ([true, true, true, true] : List Bool).getD 2 false = true) := by
  have hmt : maskList [(0 : ℚ), 1, 2, 3] [true, true, true, true] = [0, 1, 2, 3] := by
    norm_num [maskList]
  have hmb : maskList [(1 : ℚ), 2, 3, 4] [true, true, true, true] = [1, 2, 3, 4] := by
    norm_num [maskList]
  have hedges : linspace (listMin [0, 1, 2, 3]) (listMax [0, 1, 2, 3]) (3 + 1) = [0, 1, 2, 3] := by
    norm_num [linspace, listMin, listMax, List.range_succ]
  have hbs : binnedStatistic [0, 1, 2, 3] [1, 2, 3, 4] 3 (pySt (1 / 2)) =
      .ok ([some 1, some 2, some 4], [0, 1, 2, 3]) := by
    simp only [binnedStatistic, hedges]
    norm_num [exceptMapM, List.range_succ, binIndex, searchRight, pySt, pyInt, quickselect]
  have hok : baselinecut_tdep [0, 1, 2, 3] [1, 2, 3, 4] [true, true, true, true] 1 (1 / 2) true
      = .ok [false, false, true, false] := by
    simp only [baselinecut_tdep, baselineCurveData, hmt, hmb, effectiveEff, if_true]
    norm_num [pyInt]
    have hbs2 : binnedStatistic [0, 1, 2, 3] [1, 2, 3, 4] (Int.toNat 3) (pySt (1 / 2)) =
        .ok ([some 1, some 2, some 4], [0, 1, 2, 3]) := by
      rw [show Int.toNat 3 = 3 from rfl]
      exact hbs
    simp only [hbs2]
    norm_num [buildMask, thresholdCurveF, interpNextF, searchLeft, fvalLt]
  have h := c9_mask_semantics [0, 1, 2, 3] [1, 2, 3, 4] [true, true, true, true] 1 (1 / 2) true
    [false, false, true, false] 2 (by norm_num) (by norm_num) hok
  exact ⟨h.1, h.2.2⟩

/-- Counterexample for C2: with two bins over edges `[0, 1, 2]` and bin
statistics `10, 20`, the curve the code builds (nodes at ALL edges except
the final one, i.e. each bin's left edge) evaluates to `20` at the query
`1/2`, while the construction described by the claim (nodes at the bin
right edges excluding the final edge) evaluates to `10` there — the two
constructions are different functions. -/
theorem c2_nodes_counterexample :
    thresholdCurveF [some 10, some 20] [0, 1, 2] (1 / 2) = some 20 ∧
    specThresholdCurveC2 [some 10, some 20] [0, 1, 2] (1 / 2) = some 10 ∧
    thresholdCurveF [some 10, some 20] [0, 1, 2] (1 / 2) ≠
      specThresholdCurveC2 [some 10, some 20] [0, 1, 2] (1 / 2) := by
  have h1 : thresholdCurveF [some 10, some 20] [0, 1, 2] (1 / 2) = some 20 := by
    norm_num [thresholdCurveF, interpNextF, searchLeft]
  have h2 : specThresholdCurveC2 [some 10, some 20] [0, 1, 2] (1 / 2) = some 10 := by
    norm_num [specThresholdCurveC2, interpNextF, searchLeft]
  refine ⟨h1, h2, ?_⟩
  rw [h1, h2]
  simp

lemma sorted_getD_lt (l : List ℚ) (hs : List.Sorted (· < ·) l) (i j : Nat) (hij : i < j)
    (hj : j < l.length) : l.getD i 0 < l.getD j 0 := by
  have hi : i < l.length := lt_trans hij hj
  rw [List.getD_eq_getElem?_getD, List.getD_eq_getElem?_getD,
    List.getElem?_eq_getElem hi, List.getElem?_eq_getElem hj]
  have := List.pairwise_iff_get.mp hs ⟨i, hi⟩ ⟨j, hj⟩ hij
  simpa [List.get_eq_getElem] using this

lemma sorted_getD_le (l : List ℚ) (hs : List.Sorted (· < ·) l) (i j : Nat) (hij : i ≤ j)
    (hj : j < l.length) : l.getD i 0 ≤ l.getD j 0 := by
  rcases Nat.lt_or_ge i j with h | h
  · exact le_of_lt (sorted_getD_lt l hs i j h hj)
  · have : i = j := le_antisymm hij h
    rw [this]

lemma searchLeft_eq (l : List ℚ) (q : ℚ) (j : Nat) (hj : j < l.length)
    (hbelow : ∀ i, i < j → l.getD i 0 < q) (hat : q ≤ l.getD j 0) :
    searchLeft l q = j := by
  induction l generalizing j with
  | nil => simp at hj
  | cons a rest ih =>
    cases j with
    | zero =>
      rw [searchLeft, if_neg (not_lt.mpr (by simpa using hat))]
    | succ jj =>
      rw [searchLeft, if_pos (by simpa using hbelow 0 (Nat.succ_pos _))]
      rw [ih jj (by simpa using hj) (fun i hi => by simpa using hbelow (i + 1) (by omega))
        (by simpa using hat)]

lemma dropLast_getD (edges : List ℚ) (n j : Nat) (hne : edges.length = n + 1) (hj : j < n) :
    edges.dropLast.getD j 0 = edges.getD j 0 := by
  have hlen : edges.dropLast.length = n := by simp [hne]
  have hjd : j < edges.dropLast.length := by omega
  have hje : j < edges.length := by omega
  rw [List.getD_eq_getElem?_getD, List.getD_eq_getElem?_getD,
    List.getElem?_eq_getElem hjd, List.getElem?_eq_getElem hje]
  simp [List.getElem_dropLast]

lemma getLastD_eq_getD {α : Type} (x d1 d2 : α) (xs : List α) :
    (x :: xs).getLastD d1 = (x :: xs).getD ((x :: xs).length - 1) d2 := by
  rw [List.getLastD_eq_getLast?, List.getLast?_eq_getElem?, List.getD_eq_getElem?_getD]
  have hlt : (x :: xs).length - 1 < (x :: xs).length := by simp
  rw [List.getElem?_eq_getElem hlt]
  simp

/-- Claim C2 (amended): the threshold curve is the next-value step
interpolant whose nodes are the bin LEFT edges — all bin edges except the
final one — each mapped to that bin's order statistic, with clamping
extrapolation: at or below the first edge the curve returns the first
statistic, each node returns its own bin's statistic, a query strictly
inside a bin returns the NEXT bin's statistic, and beyond the last node
(the last bin's interior and everything above) it returns the last
statistic. -/
theorem c2_curve_characterization (cutoffs : List (Option ℚ)) (edges : List ℚ) (n : Nat)
    (q : ℚ) (hn : 0 < n) (hne : edges.length = n + 1) (hnc : cutoffs.length = n)
    (hsort : List.Sorted (· < ·) edges) :
    (q ≤ edges.getD 0 0 → thresholdCurveF cutoffs edges q = cutoffs.getD 0 none) ∧
    (edges.getD (n - 1) 0 < q → thresholdCurveF cutoffs edges q = cutoffs.getD (n - 1) none) ∧
    (∀ j, j < n → thresholdCurveF cutoffs edges (edges.getD j 0) = cutoffs.getD j none) ∧
    (∀ j, j + 1 < n → edges.getD j 0 < q → q ≤ edges.getD (j + 1) 0 →
      thresholdCurveF cutoffs edges q = cutoffs.getD (j + 1) none) := by
  have hnodeslen : edges.dropLast.length = n := by simp [hne]
  have hnodesget : ∀ j, j < n → edges.dropLast.getD j 0 = edges.getD j 0 :=
    fun j hj => dropLast_getD edges n j hne hj
  have hlastD : cutoffs.getLastD none = cutoffs.getD (n - 1) none := by
    rw [List.getLastD_eq_getLast?, List.getLast?_eq_getElem?, List.getD_eq_getElem?_getD, hnc]
  cases hcons : edges.dropLast with
  | nil =>
    rw [hcons] at hnodeslen
    simp at hnodeslen
    omega
  | cons a rest =>
    have hcl : rest.length + 1 = n := by
      have := hnodeslen
      rw [hcons] at this
      simpa using this
    have ha : a = edges.getD 0 0 := by
      have := hnodesget 0 hn
      rw [hcons] at this
      simpa using this
    have hlast : (a :: rest).getLastD a = edges.getD (n - 1) 0 := by
      rw [getLastD_eq_getD a a 0 rest]
      have hlen2 : (a :: rest).length - 1 = n - 1 := by
        simp only [List.length_cons]
        omega
      rw [hlen2, ← hcons, hnodesget (n - 1) (by omega)]
    refine ⟨?_, ?_, ?_, ?_⟩
    · intro hq
      rw [thresholdCurveF, hcons, interpNextF]
      by_cases hlt : q < a
      · rw [if_pos hlt]
      · rw [if_neg hlt]
        rw [if_neg (by
          rw [hlast]
          push_neg
          calc q ≤ edges.getD 0 0 := hq
            _ ≤ edges.getD (n - 1) 0 :=
                sorted_getD_le edges hsort 0 (n - 1) (by omega) (by omega))]
        rw [← hcons, searchLeft_eq edges.dropLast q 0 (by omega)
          (fun i hi => absurd hi (Nat.not_lt_zero i)) (by rw [hnodesget 0 hn]; exact hq)]
    · intro hq
      rw [thresholdCurveF, hcons, interpNextF]
      rw [if_neg (by
        push_neg
        calc a = edges.getD 0 0 := ha
          _ ≤ edges.getD (n - 1) 0 := sorted_getD_le edges hsort 0 (n - 1) (by omega) (by omega)
          _ ≤ q := le_of_lt hq)]
      rw [if_pos (by rw [hlast]; exact hq)]
      exact hlastD
    · intro j hj
      rw [thresholdCurveF, hcons, interpNextF]
      rw [if_neg (by
        push_neg
        rw [ha]
        exact sorted_getD_le edges hsort 0 j (by omega) (by omega))]
      rw [if_neg (by
        rw [hlast]
        push_neg
        exact sorted_getD_le edges hsort j (n - 1) (by omega) (by omega))]
      rw [← hcons, searchLeft_eq edges.dropLast (edges.getD j 0) j (by omega)
        (fun i hi => by
          rw [hnodesget i (by omega)]
          exact sorted_getD_lt edges hsort i j hi (by omega))
        (by rw [hnodesget j hj])]
    · intro j hj hlq hqu
      rw [thresholdCurveF, hcons, interpNextF]
      rw [if_neg (by
        push_neg
        rw [ha]
        calc edges.getD 0 0 ≤ edges.getD j 0 := sorted_getD_le edges hsort 0 j (by omega) (by omega)
          _ ≤ q := le_of_lt hlq)]
      rw [if_neg (by
        rw [hlast]
        push_neg
        calc q ≤ edges.getD (j + 1) 0 := hqu
          _ ≤ edges.getD (n - 1) 0 := sorted_getD_le edges hsort (j + 1) (n - 1) (by omega) (by omega))]
      rw [← hcons, searchLeft_eq edges.dropLast q (j + 1) (by omega)
        (fun i hi => by
          rw [hnodesget i (by omega)]
          calc edges.getD i 0 ≤ edges.getD j 0 := sorted_getD_le edges hsort i j (by omega) (by omega)
            _ < q := hlq)
        (by rw [hnodesget (j + 1) (by omega)]; exact hqu)]

/-- Witness for the amended C2: beyond the last node the curve clamps to the
last computed statistic. -/
theorem c2_curve_characterization_witness :
    thresholdCurveF [some 10, some 20] [0, 1, 2] 5 = [some (10 : ℚ), some 20].getD 1 none :=
  (c2_curve_characterization [some 10, some 20] [0, 1, 2] 2 5 (by norm_num) (by norm_num)
    (by norm_num) (by norm_num [List.sorted_cons])).2.1 (by norm_num)

/-- Claim C10: `inrange` returns a mask of the same length; entry `i` is
true exactly when the value is a real number lying in the closed interval
`[lower, upper]` (both ends inclusive); when `lower > upper` every entry is
false; the function is total (it is a plain `map`), and a NaN value yields
false at its position. -/
theorem c10_inrange_semantics (vals : List (Option ℚ)) (l u : ℚ) (i : Nat) :
    (inrange vals (some l) (some u)).length = vals.length ∧
    ((inrange vals (some l) (some u)).getD i false =
      (match vals.getD i none with
        | some v => decide (l ≤ v) && decide (v ≤ u)
        | none => false)) ∧
    (u < l → (inrange vals (some l) (some u)).getD i false = false) ∧
    (vals.getD i none = none → (inrange vals (some l) (some u)).getD i false = false) := by
  have hgd : (inrange vals (some l) (some u)).getD i false =
      (match vals.getD i none with
        | some v => decide (l ≤ v) && decide (v ≤ u)
        | none => false) := by
    by_cases hi : i < vals.length
    · rw [inrange, List.getD_eq_getElem?_getD, List.getElem?_map,
        List.getElem?_eq_getElem hi]
      rw [List.getD_eq_getElem?_getD, List.getElem?_eq_getElem hi]
      cases hv : vals[i] with
      | none => simp [fge, fle, hv]
      | some v => simp [fge, fle, hv]
    · have hi2 : vals.length ≤ i := le_of_not_lt hi
      have hlen : (inrange vals (some l) (some u)).length ≤ i := by
        simpa [inrange] using hi2
      rw [List.getD_eq_getElem?_getD, List.getElem?_eq_none hlen]
      rw [List.getD_eq_getElem?_getD (l := vals), List.getElem?_eq_none hi2]
      simp
  refine ⟨by simp [inrange], hgd, ?_, ?_⟩
  · intro hul
    rw [hgd]
    cases hv : vals.getD i none with
    | none => simp
    | some v =>
      simp only []
      by_cases h1 : l ≤ v
      · have h2 : ¬v ≤ u := by
          push_neg
          exact lt_of_lt_of_le hul h1
        simp [h2]
      · simp [h1]
  · intro hnan
    rw [hgd, hnan]

/-- Witness for C10 at a concrete input: a NaN entry and a boundary entry
over the reversed bounds `lower = 3 > upper = 2`. -/
theorem c10_inrange_semantics_witness :
    ((2 : ℚ) < 3 → (inrange [some 3, none] (some 3) (some 2)).getD 0 false = false) ∧
    ((inrange [some 3, none] (some 3) (some 2)).length = [some (3 : ℚ), none].length) :=
  ⟨fun h => (c10_inrange_semantics [some 3, none] 3 2 0).2.2.1 h,
    (c10_inrange_semantics [some 3, none] 3 2 1).1⟩

lemma argsort_perm (l : List ℚ) : (argsort l).Perm (List.range l.length) :=
  List.mergeSort_perm _ _

lemma argsort_map_sorted (l : List ℚ) :
    List.Sorted (· ≤ ·) ((argsort l).map (fun i => l.getD i 0)) := by
  have h := @List.sorted_mergeSort Nat (fun i j => decide (l.getD i 0 ≤ l.getD j 0))
    (by
      intro a b c hab hbc
      simp only [decide_eq_true_eq] at *
      exact le_trans hab hbc)
    (by intro a b; simpa using le_total (l.getD a 0) (l.getD b 0))
    (List.range l.length)
  rw [argsort]
  refine List.Pairwise.map _ ?_ h
  intro a b hab
  simpa using hab

lemma guess_cond_iff (L n : Nat) : ((n : ℚ) = ((L : ℚ) - 1) / 3) ↔ L = 3 * n + 1 := by
  constructor
  · intro h
    have h3 : (3 : ℚ) * (n : ℚ) = (L : ℚ) - 1 := by
      field_simp at h
      linarith
    have hcast : ((3 * n + 1 : ℕ) : ℚ) = (L : ℚ) := by
      push_cast
      linarith
    exact (Nat.cast_injective hcast).symm
  · intro h
    subst h
    push_cast
    ring

/-- Counterexample for C1: with fit parameters `(A, mu, sigma) = (10, 2, 30)`
and `(40, 1, 60)` plus background `7` and a covariance whose diagonal is
`1..7`, the fit output reorders the peaks to ascending `[1, 2]` (second
component first), yet the returned squared uncertainties stay in the
original parameter order `[1..7]` instead of the sorted component order
`[4, 5, 6, 1, 2, 3, 7]` the claim describes — uncertainty `i` does NOT
pair with sorted component `i`. -/
theorem c1_errors_order_counterexample :
    (multiGaussPost [10, 2, 30, 40, 1, 60, 7]
        [[1, 0, 0, 0, 0, 0, 0], [0, 2, 0, 0, 0, 0, 0], [0, 0, 3, 0, 0, 0, 0],
          [0, 0, 0, 4, 0, 0, 0], [0, 0, 0, 0, 5, 0, 0], [0, 0, 0, 0, 0, 6, 0],
          [0, 0, 0, 0, 0, 0, 7]]).peaks = [1, 2] ∧
    (multiGaussPost [10, 2, 30, 40, 1, 60, 7]
        [[1, 0, 0, 0, 0, 0, 0], [0, 2, 0, 0, 0, 0, 0], [0, 0, 3, 0, 0, 0, 0],
          [0, 0, 0, 4, 0, 0, 0], [0, 0, 0, 0, 5, 0, 0], [0, 0, 0, 0, 0, 6, 0],
          [0, 0, 0, 0, 0, 0, 7]]).errors2 = [1, 2, 3, 4, 5, 6, 7] ∧
    specSortedErrors2 [10, 2, 30, 40, 1, 60, 7]
        [[1, 0, 0, 0, 0, 0, 0], [0, 2, 0, 0, 0, 0, 0], [0, 0, 3, 0, 0, 0, 0],
          [0, 0, 0, 4, 0, 0, 0], [0, 0, 0, 0, 5, 0, 0], [0, 0, 0, 0, 0, 6, 0],
          [0, 0, 0, 0, 0, 0, 7]] = [4, 5, 6, 1, 2, 3, 7] ∧
    (multiGaussPost [10, 2, 30, 40, 1, 60, 7]
        [[1, 0, 0, 0, 0, 0, 0], [0, 2, 0, 0, 0, 0, 0], [0, 0, 3, 0, 0, 0, 0],
          [0, 0, 0, 4, 0, 0, 0], [0, 0, 0, 0, 5, 0, 0], [0, 0, 0, 0, 0, 6, 0],
          [0, 0, 0, 0, 0, 0, 7]]).errors2 ≠
      specSortedErrors2 [10, 2, 30, 40, 1, 60, 7]
        [[1, 0, 0, 0, 0, 0, 0], [0, 2, 0, 0, 0, 0, 0], [0, 0, 3, 0, 0, 0, 0],
          [0, 0, 0, 4, 0, 0, 0], [0, 0, 0, 0, 5, 0, 0], [0, 0, 0, 0, 0, 6, 0],
          [0, 0, 0, 0, 0, 0, 7]] := by
  refine ⟨?_, ?_, ?_, ?_⟩ <;>
    norm_num [multiGaussPost, specSortedErrors2, strided, diag, argsort, List.range_succ,
      List.mergeSort, List.merge]

/-- Claim C1 (amended): for every successful multi-Gaussian fit, the
locations, amplitudes and scales are jointly reordered by one permutation
so that locations come out ascending, and the background scalar is not
reordered; but the parameter uncertainties (squared here) are reported in
the ORIGINAL parameter order — the order of the input guess and of
`fitparams` — not in the sorted component order. -/
theorem c1_sorted_components (arr guess : List ℚ) (ngauss : Nat)
    (bindata : List ℚ → List ℚ × List ℚ × List ℚ)
    (curveFit : List ℚ × List ℚ × List ℚ → List ℚ → List ℚ × List (List ℚ)) (r : MGResult)
    (hok : fit_multi_gauss arr guess ngauss bindata curveFit = .ok r) :
    List.Sorted (· ≤ ·) r.peaks ∧
    r.errors2 = diag (curveFit (bindata arr) guess).2 ∧
    r.background = (curveFit (bindata arr) guess).1.getLastD 0 ∧
    (∃ s : List Nat, s.Perm (List.range (strided (curveFit (bindata arr) guess).1 1).length) ∧
      r.peaks = s.map (fun i => (strided (curveFit (bindata arr) guess).1 1).getD i 0) ∧
      r.amps = s.map (fun i => (strided (curveFit (bindata arr) guess).1 0).getD i 0) ∧
      r.stds = s.map (fun i => (strided (curveFit (bindata arr) guess).1 2).getD i 0)) := by
  rw [fit_multi_gauss] at hok
  by_cases hv : (ngauss : ℚ) ≠ ((guess.length : ℚ) - 1) / 3
  · rw [if_pos hv] at hok
    exact absurd hok (by simp)
  · rw [if_neg hv] at hok
    injection hok with hr
    subst hr
    refine ⟨?_, rfl, rfl, argsort (strided (curveFit (bindata arr) guess).1 1),
      argsort_perm _, rfl, rfl, rfl⟩
    exact argsort_map_sorted _

/-- Witness for the amended C1 at a concrete solver outcome (the same
parameters as the counterexample): the returned peak list is sorted. -/
theorem c1_sorted_components_witness :
    List.Sorted (· ≤ ·)
      (multiGaussPost [10, 2, 30, 40, 1, 60, 7]
        [[1, 0, 0, 0, 0, 0, 0], [0, 2, 0, 0, 0, 0, 0], [0, 0, 3, 0, 0, 0, 0],
          [0, 0, 0, 4, 0, 0, 0], [0, 0, 0, 0, 5, 0, 0], [0, 0, 0, 0, 0, 6, 0],
          [0, 0, 0, 0, 0, 0, 7]]).peaks :=
  (c1_sorted_components [] [0, 0, 0, 0, 0, 0, 0] 2 (fun _ => ([], [], []))
    (fun _ _ => ([10, 2, 30, 40, 1, 60, 7],
      [[1, 0, 0, 0, 0, 0, 0], [0, 2, 0, 0, 0, 0, 0], [0, 0, 3, 0, 0, 0, 0],
        [0, 0, 0, 4, 0, 0, 0], [0, 0, 0, 0, 5, 0, 0], [0, 0, 0, 0, 0, 6, 0],
        [0, 0, 0, 0, 0, 0, 7]]))
    (multiGaussPost [10, 2, 30, 40, 1, 60, 7]
      [[1, 0, 0, 0, 0, 0, 0], [0, 2, 0, 0, 0, 0, 0], [0, 0, 3, 0, 0, 0, 0],
        [0, 0, 0, 4, 0, 0, 0], [0, 0, 0, 0, 5, 0, 0], [0, 0, 0, 0, 0, 6, 0],
        [0, 0, 0, 0, 0, 0, 7]])
    (by
      rw [fit_multi_gauss,
        if_neg (by rw [ne_eq, not_not, guess_cond_iff]; norm_num)])).1

/-- Claim C7: `fit_multi_gauss` rejects the guess with its validation error
exactly when the guess length differs from `3 * ngauss + 1` (the code
compares `ngauss` with `(len(guess) - 1) / 3` under exact true division,
which is equivalent), the rejection happens before any histogramming or
fitting — the outcome is the same error for every data array and every
histogrammer/solver oracle — and a guess of the right length passes the
validation and reaches the solver. -/
theorem c7_guess_validation (arr guess : List ℚ) (ngauss : Nat)
    (bindata : List ℚ → List ℚ × List ℚ × List ℚ)
    (curveFit : List ℚ × List ℚ × List ℚ → List ℚ → List ℚ × List (List ℚ)) :
    (fit_multi_gauss arr guess ngauss bindata curveFit = .error .config ↔
      guess.length ≠ 3 * ngauss + 1) ∧
    (guess.length ≠ 3 * ngauss + 1 →
      ∀ (arr2 : List ℚ) (bindata2 : List ℚ → List ℚ × List ℚ × List ℚ)
        (curveFit2 : List ℚ × List ℚ × List ℚ → List ℚ → List ℚ × List (List ℚ)),
        fit_multi_gauss arr2 guess ngauss bindata2 curveFit2 = .error .config) ∧
    (guess.length = 3 * ngauss + 1 →
      ∃ r, fit_multi_gauss arr guess ngauss bindata curveFit = .ok r) := by
  have hcond : ∀ (arr2 : List ℚ) (bindata2 : List ℚ → List ℚ × List ℚ × List ℚ)
      (curveFit2 : List ℚ × List ℚ × List ℚ → List ℚ → List ℚ × List (List ℚ)),
      guess.length ≠ 3 * ngauss + 1 →
      fit_multi_gauss arr2 guess ngauss bindata2 curveFit2 = .error .config := by
    intro arr2 bindata2 curveFit2 h
    rw [fit_multi_gauss, if_pos (by rw [ne_eq, guess_cond_iff]; exact h)]
  refine ⟨⟨?_, fun h => hcond arr bindata curveFit h⟩, fun h arr2 b2 c2 => hcond arr2 b2 c2 h, ?_⟩
  · intro hres
    by_contra hlen
    rw [fit_multi_gauss, if_neg (by rw [ne_eq, not_not, guess_cond_iff]; exact hlen)] at hres
    exact absurd hres (by simp)
  · intro hlen
    exact ⟨multiGaussPost (curveFit (bindata arr) guess).1 (curveFit (bindata arr) guess).2,
      by rw [fit_multi_gauss, if_neg (by rw [ne_eq, not_not, guess_cond_iff]; exact hlen)]⟩

/-- Witness for C7: an 8-element guess with `ngauss = 2` (needs 7) is
rejected with the validation error for arbitrary data and oracles. -/
theorem c7_guess_validation_witness :
    fit_multi_gauss [] [0, 0, 0, 0, 0, 0, 0, 0] 2 (fun _ => ([], [], []))
      (fun _ g => (g, [])) = .error .config :=
  (c7_guess_validation [] [0, 0, 0, 0, 0, 0, 0, 0] 2 (fun _ => ([], [], []))
    (fun _ g => (g, []))).1.mpr (by norm_num)

/-- Claim C4 (code bug): the lower-sideband clipping branch of `fit_gauss`
assigns the wrong variable (`clow` instead of `clowl`), so a lower sideband
whose lower edge lies below the fit range is NOT clipped and handled — the
later use of `clowl` raises `NameError` and the fit never completes.  A
lower sideband starting inside the fit range takes the correctly assigned
branch and the background mean is computed. -/
theorem c4_sideband_namerror :
    fitGaussBackground [0, 1, 2, 3] [5, 6, 7, 8] (0, 10) ((-1, 2), (8, 11)) =
      .error .nameErr ∧
    fitGaussBackground [0, 1, 2, 3] [5, 6, 7, 8] (0, 3) ((0, 1), (2, 4)) = .ok 5 := by
  constructor
  · norm_num [fitGaussBackground]
  · have h2 : (2 : Int).toNat = 2 := rfl
    norm_num [fitGaussBackground, argminAbs, argminAbsAux, pySlice, pySliceNorm, pyMean, h2]
